import Mathlib

/-!
Verification of the `constraints` module of LensTools (statistical tools for
cosmological parameter inference).

The development shallowly embeds the module `src/lenstools/constraints.py`:

* numpy float arrays are modelled over `ℚ` (exact arithmetic stands in for
  IEEE floats; all the algebra of the module is rational in its inputs);
* a parameter set of `p` models over `q` parameters is `Fin p → Fin q → ℚ`,
  a training set of features flattened to `N` bins is `Fin p → Fin N → ℚ`;
* fallible Python code (assert statements, `raise ValueError`, numpy
  `LinAlgError` on singular matrices, IndexError on bad indices) is modelled
  with `Except PyErr`;
* `numpy.linalg.solve A B` is modelled as `A⁻¹ * B` guarded by a
  determinant-zero check (`npSolve`), `numpy.linalg.inv` likewise (`npInv`);
* the scipy `Rbf` interpolators built by `LikelihoodAnalysis.train` are
  external native code; the trained interpolator bank is taken as an opaque
  parameter (`interpolator : Fin N → (Fin q → ℚ) → ℚ`, one scalar
  interpolator per flattened feature bin, exactly the shape the source
  stores in `self._interpolator`);
* the caller-supplied `pool` of `chi2` is not modelled: the sequential
  `map` branch (`pool is None`) is embedded.
-/

/-- Python exceptions raised by the module: `assert` failures (with the
assertion's message, `""` for a bare `assert`), explicit `raise ValueError`,
numpy `LinAlgError` on a singular matrix in `solve`/`inv`, and `IndexError`
from invalid numpy indexing. -/
inductive PyErr where
  | assertionError (msg : String)
  | valueError (msg : String)
  | indexError
  | linAlgError
deriving DecidableEq

/-- State of a constructed `Analysis` instance (src/lenstools/constraints.py
lines 99-109): the `_analysis_type` class tag and the two optional seed
arrays, stored as given. -/
structure Analysis where
  analysis_type : String
  parameter_set : Option (List (List ℚ))
  training_set : Option (List (List ℚ))
deriving DecidableEq

/-- `Analysis.__init__` (lines 101-109).  `analysis_type` is the
`_analysis_type` class attribute: `None` on the base class, `"Fisher"` or
`"Likelihood"` on the two subclasses.  The first assert rejects direct
instantiation of the base class; the shape assert compares first-axis
lengths and fires only when both arrays are supplied. -/
def Analysis.init (analysis_type : Option String)
    (parameter_set training_set : Option (List (List ℚ))) : Except PyErr Analysis :=
  match analysis_type with
  | none => .error (.assertionError "Don't instantiate this class directly, use one of its subclasses!")
  | some t =>
    match parameter_set, training_set with
    | some ps, some ts =>
      if ps.length = ts.length then .ok ⟨t, some ps, some ts⟩
      else .error (.assertionError "There should be one feature for each of the simulated models!")
    | _, _ => .ok ⟨t, parameter_set, training_set⟩

/-- State of a `FisherAnalysis` instance whose `parameter_set` (`p` models ×
`q` parameters) and `training_set` (`p` models × `N` flattened feature bins)
are populated.  `fiducial` is the `_fiducial` attribute (an integer index,
default 0); `derivatives` holds the cached `self.derivatives` array together
with the `self._varied_list` recorded alongside it by `compute_derivatives`,
or `none` when the attribute is not set. -/
structure FisherAnalysis (p q N : ℕ) where
  parameter_set : Fin p → Fin q → ℚ
  training_set : Fin p → Fin N → ℚ
  fiducial : ℕ
  derivatives : Option (List (Fin N → ℚ) × List ℕ)

/-- `FisherAnalysis.set_fiducial` (lines 165-177): checks `n <
parameter_set.shape[0]` and sets `_fiducial`.  Nothing else on the instance
is touched. -/
def FisherAnalysis.set_fiducial {p q N : ℕ} (st : FisherAnalysis p q N) (n : ℕ) :
    Except PyErr (FisherAnalysis p q N) :=
  if n < p then .ok { st with fiducial := n }
  else .error (.assertionError s!"There are less than {n+1} models in your analysis")

/-- `Analysis.add_model` (lines 118-146) on a populated analysis (the
`else` branch: the instance already holds models, so the new row is
`np.vstack`-ed below the existing ones; the shape asserts at lines 142-143
are enforced by the types).  Nothing else on the instance is touched: in
particular the `derivatives`/`_varied_list` cache survives unchanged.  The
first-model branch (`parameter_set is None`) starts from an unpopulated
instance and is outside this populated-state model. -/
def FisherAnalysis.add_model {p q N : ℕ} (st : FisherAnalysis p q N)
    (parameters : Fin q → ℚ) (feature : Fin N → ℚ) : FisherAnalysis (p + 1) q N where
  parameter_set := Fin.snoc st.parameter_set parameters
  training_set := Fin.snoc st.training_set feature
  fiducial := st.fiducial
  derivatives := st.derivatives

/-- Model `i` varies exactly the parameter `j` with respect to the fiducial
model `fid`: they differ at index `j` and agree everywhere else. -/
def variesExactlyOne {p q : ℕ} (pset : Fin p → Fin q → ℚ) (fid i : Fin p) (j : Fin q) : Prop :=
  pset i j ≠ pset fid j ∧ ∀ j2, j2 ≠ j → pset i j2 = pset fid j2

instance {p q : ℕ} (pset : Fin p → Fin q → ℚ) (fid i : Fin p) (j : Fin q) :
    Decidable (variesExactlyOne pset fid i j) :=
  decidable_of_iff (pset i j ≠ pset fid j ∧ ∀ j2, j2 ≠ j → pset i j2 = pset fid j2) Iff.rfl

/-- One iteration of the `compute_derivatives` loop (lines 202-214) for
non-fiducial model `i`, given the `_varied_list` accumulated so far:
the element-wise comparison with the fiducial parameters, the
`comparison.sum() == len(comparison)-1` assert, the first differing index
(`np.where(comparison==False)[0][0]`, an `IndexError` if no index differs —
unreachable once the previous assert passed), the duplicate-parameter
assert, and the finite-difference derivative row. -/
def derivStep {p q N : ℕ} (pset : Fin p → Fin q → ℚ) (tset : Fin p → Fin N → ℚ)
    (fid : Fin p) (varied : List ℕ) (i : Fin p) : Except PyErr ((Fin N → ℚ) × ℕ) :=
  let eqCount := (Finset.univ.filter fun j => pset i j = pset fid j).card
  if eqCount + 1 = q then
    match (List.finRange q).find? (fun j => decide (pset i j ≠ pset fid j)) with
    | none => .error .indexError
    | some j =>
      if j.val ∈ varied then .error (.assertionError "You cannot vary a parameter twice!!")
      else .ok (fun b => (tset i b - tset fid b) / (pset i j - pset fid j), j.val)
  else .error (.assertionError "You must vary one parameter at a time!")

/-- The `compute_derivatives` loop over the non-fiducial model indices,
threading the `_varied_list` accumulator and collecting derivative rows in
order. -/
def derivLoop {p q N : ℕ} (pset : Fin p → Fin q → ℚ) (tset : Fin p → Fin N → ℚ)
    (fid : Fin p) : List (Fin p) → List ℕ → Except PyErr (List (Fin N → ℚ) × List ℕ)
  | [], varied => .ok ([], varied)
  | i :: rest, varied =>
    match derivStep pset tset fid varied i with
    | .error e => .error e
    | .ok (row, jv) =>
      match derivLoop pset tset fid rest (varied ++ [jv]) with
      | .error e => .error e
      | .ok (rows, vfin) => .ok (row :: rows, vfin)

/-- `FisherAnalysis.compute_derivatives` (lines 179-219): needs more than one
model, removes the fiducial index from `range(p)` (a Python `list.remove`,
which raises `ValueError` when the element is absent, i.e. when the fiducial
index is out of range), and runs the per-model loop starting from an empty
`_varied_list`.  Returns the derivative rows (one per non-fiducial model, in
index order) and the recorded varied-parameter indices. -/
def FisherAnalysis.compute_derivatives {p q N : ℕ} (st : FisherAnalysis p q N) :
    Except PyErr (List (Fin N → ℚ) × List ℕ) :=
  if 1 < p then
    if hfid : st.fiducial < p then
      derivLoop st.parameter_set st.training_set ⟨st.fiducial, hfid⟩
        ((List.finRange p).erase ⟨st.fiducial, hfid⟩) []
    else .error (.valueError "list.remove(x): x not in list")
  else .error (.assertionError "You need at least 2 models to proceed in a Fisher Analysis!")

/-- `FisherAnalysis.get_varied` (lines 221-230): asserts that the
`derivatives` attribute exists and returns `self._varied_list`. -/
def FisherAnalysis.get_varied {p q N : ℕ} (st : FisherAnalysis p q N) : Except PyErr (List ℕ) :=
  match st.derivatives with
  | some dv => .ok dv.2
  | none => .error (.assertionError "You must compute the derivatives first!")

/-- The `if not hasattr(self,"derivatives"): self.compute_derivatives()`
pattern of `fit` (lines 254-255) and `fisher_matrix` (lines 294-295): the
cached derivatives and varied list are used when present, otherwise they are
computed from the current state. -/
def FisherAnalysis.cachedDerivatives {p q N : ℕ} (st : FisherAnalysis p q N) :
    Except PyErr (List (Fin N → ℚ) × List ℕ) :=
  match st.derivatives with
  | some dv => .ok dv
  | none => st.compute_derivatives

/-- Feature covariance argument: either a full square matrix over the `N`
flattened feature bins (`shape == feature_shape * 2`) or a diagonal-only
rank-1 vector (`shape == feature_shape`). -/
inductive Cov (N : ℕ) where
  | full (A : Matrix (Fin N) (Fin N) ℚ)
  | diag (d : Fin N → ℚ)

/-- `numpy.linalg.solve(A, B)`: raises `LinAlgError` on a singular matrix,
otherwise returns the exact solution `A⁻¹ * B`, written through the
adjugate so the definition stays executable. -/
def npSolve {n m : ℕ} (A : Matrix (Fin n) (Fin n) ℚ) (B : Matrix (Fin n) (Fin m) ℚ) :
    Except PyErr (Matrix (Fin n) (Fin m) ℚ) :=
  if A.det = 0 then .error .linAlgError else .ok (A.det⁻¹ • (A.adjugate * B))

/-- `numpy.linalg.inv(A)`: raises `LinAlgError` on a singular matrix,
otherwise returns the exact inverse. -/
def npInv {n : ℕ} (A : Matrix (Fin n) (Fin n) ℚ) : Except PyErr (Matrix (Fin n) (Fin n) ℚ) :=
  if A.det = 0 then .error .linAlgError else .ok (A.det⁻¹ • A.adjugate)

/-- The list of derivative rows as a matrix (`self.derivatives`, one row per
non-fiducial model, `N` columns). -/
def rowsMatrix {N : ℕ} (rows : List (Fin N → ℚ)) : Matrix (Fin rows.length) (Fin N) ℚ :=
  Matrix.of fun k b => rows.get k b

/-- `(1/cov[:,None]) * derivatives.T`: each row `b` of `derivatives.T`
scaled by the reciprocal diagonal covariance entry (lines 261 and 301). -/
def diagY {N m : ℕ} (d : Fin N → ℚ) (D : Matrix (Fin m) (Fin N) ℚ) :
    Matrix (Fin N) (Fin m) ℚ :=
  Matrix.of fun b k => (1 / d b) * D.transpose b k

/-- The shared `Y` computation of `fit` (lines 258-261) and `fisher_matrix`
(lines 298-301): `Y = solve(cov, derivatives.T)` for a full covariance, and
the reciprocal-scaled transpose for a rank-1 covariance. -/
def covSolveY {N m : ℕ} (cov : Cov N) (D : Matrix (Fin m) (Fin N) ℚ) :
    Except PyErr (Matrix (Fin N) (Fin m) ℚ) :=
  match cov with
  | .full A => npSolve A D.transpose
  | .diag d => .ok (diagY d D)

/-- Conversion of a stored varied-parameter index to a `Fin q` index into a
parameter vector; `none` models the `IndexError` numpy raises on an
out-of-range fancy index. -/
def finIdx (q x : ℕ) : Option (Fin q) := if h : x < q then some ⟨x, h⟩ else none

/-- `FisherAnalysis.fit` (lines 232-270).  The observed feature and the
covariance shapes are enforced by the types (`Fin N → ℚ` and `Cov N` mirror
the two accepted shapes of the asserts at lines 250-251; a `None` covariance
is unrepresentable).  Derivatives are taken from the cache or computed;
`Y`, `XY = derivatives · Y` and `M = solve(XY, Y.T)` are built; the result
is `parameter_set[fiducial, varied_list] + M · (observed - fiducial
feature)`.  The final guards model the `IndexError`/broadcast failures of
the numpy indexing and addition on a malformed cached varied list (they
cannot fire on a cache produced by `compute_derivatives`). -/
def FisherAnalysis.fit {p q N : ℕ} (st : FisherAnalysis p q N)
    (observed_feature : Fin N → ℚ) (features_covariance : Cov N) : Except PyErr (List ℚ) :=
  match st.cachedDerivatives with
  | .error e => .error e
  | .ok (rows, varied) =>
    let D := rowsMatrix rows
    match covSolveY features_covariance D with
    | .error e => .error e
    | .ok Y =>
      match npSolve (D * Y) Y.transpose with
      | .error e => .error e
      | .ok M =>
        if hf : st.fiducial < p then
          let dP : Fin rows.length → ℚ :=
            M.mulVec fun b => observed_feature b - st.training_set ⟨st.fiducial, hf⟩ b
          match varied.mapM (finIdx q) with
          | none => .error .indexError
          | some vf =>
            if vf.length = rows.length then
              .ok (List.zipWith (fun a b => a + b)
                (vf.map fun j => st.parameter_set ⟨st.fiducial, hf⟩ j) (List.ofFn dP))
            else .error (.valueError "operands could not be broadcast together")
        else .error .indexError

/-- `FisherAnalysis.fisher_matrix` (lines 274-321).  With
`observed_features_covariance = None` it returns the raw information matrix
`XY = derivatives · Y`; otherwise it propagates the observed covariance
through `M = solve(XY, Y.T)` and returns the inverse of the propagated
parameter covariance.  The result dimension (number of derivative rows) is
packaged in a sigma type since it is only known at run time. -/
def FisherAnalysis.fisher_matrix {p q N : ℕ} (st : FisherAnalysis p q N)
    (simulated_features_covariance : Cov N) (observed_features_covariance : Option (Cov N)) :
    Except PyErr ((m : ℕ) × Matrix (Fin m) (Fin m) ℚ) :=
  match st.cachedDerivatives with
  | .error e => .error e
  | .ok (rows, _varied) =>
    let D := rowsMatrix rows
    match covSolveY simulated_features_covariance D with
    | .error e => .error e
    | .ok Y =>
      let XY := D * Y
      match observed_features_covariance with
      | none => .ok ⟨rows.length, XY⟩
      | some oc =>
        match npSolve XY Y.transpose with
        | .error e => .error e
        | .ok M =>
          let parameter_covariance :=
            match oc with
            | .full O => M * O * M.transpose
            | .diag o => (Matrix.of fun k b => M k b * o b) * M.transpose
          match npInv parameter_covariance with
          | .error e => .error e
          | .ok R => .ok ⟨rows.length, R⟩

/-- State of a trained `LikelihoodAnalysis`: the interpolator bank built by
`train` — one scalar interpolator per flattened feature bin — taken as an
opaque function since the scipy `Rbf` construction is external native code. -/
structure LikelihoodAnalysis (q N : ℕ) where
  interpolator : Fin N → (Fin q → ℚ) → ℚ

/-- The chi-squared value of one parameter point: predict the feature with
the bin interpolators (`_predict`), then form the sandwich product
`(obs - model) · covinv · (obs - model)` summed over the feature axis
(lines 48-50 of the module-level `chi2`). -/
def chi2_point {q N : ℕ} (interpolator : Fin N → (Fin q → ℚ) → ℚ)
    (inverse_covariance : Matrix (Fin N) (Fin N) ℚ) (observed_feature : Fin N → ℚ)
    (x : Fin q → ℚ) : ℚ :=
  let diff : Fin N → ℚ := fun b => observed_feature b - interpolator b x
  Finset.univ.sum fun j => diff j * Matrix.vecMul diff inverse_covariance j

/-- The module-level `chi2` function (lines 38-50) applied to one chunk of
parameter points (the batch branch, `parameters.ndim == 2`): the per-point
chi-squared of every row of the chunk. -/
def chi2_chunk {q N : ℕ} (interpolator : Fin N → (Fin q → ℚ) → ℚ)
    (inverse_covariance : Matrix (Fin N) (Fin N) ℚ) (observed_feature : Fin N → ℚ)
    (parameters : List (Fin q → ℚ)) : List ℚ :=
  parameters.map (chi2_point interpolator inverse_covariance observed_feature)

/-- `LikelihoodAnalysis.chi2` (lines 407-475), batch input, `pool = None`.
The asserts at lines 429-432 require a full (feature-shape squared)
covariance: a rank-1 diagonal covariance fails the bare assert at line 432.
The parameter batch is split into `split_chunks` contiguous chunks (the
whole batch if `None`; `ValueError` for a non-positive value, an assert
failure when the chunk count does not divide the batch size), the
covariance inverse is computed once, the per-chunk results are concatenated
back in order (`np.array(chi2_list).reshape(num_points)`). -/
def LikelihoodAnalysis.chi2 {q N : ℕ} (st : LikelihoodAnalysis q N)
    (parameters : List (Fin q → ℚ)) (observed_feature : Fin N → ℚ)
    (features_covariance : Cov N) (split_chunks : Option ℤ) : Except PyErr (List ℚ) :=
  match features_covariance with
  | .diag _ => .error (.assertionError "")
  | .full A =>
    let num_points := parameters.length
    let chunksE : Except PyErr (List (List (Fin q → ℚ))) :=
      match split_chunks with
      | none => .ok [parameters]
      | some k =>
        if 0 < k then
          if (num_points : ℤ) % k = 0 then
            let chunk_length := num_points / k.toNat
            .ok ((List.range k.toNat).map fun n =>
              (parameters.drop (n * chunk_length)).take chunk_length)
          else .error (.assertionError "split_chunks must divide exactly the number of points!!")
        else .error (.valueError "split_chunks must be >0!!")
    match chunksE with
    | .error e => .error e
    | .ok parameter_chunks =>
      if A.det = 0 then .error .linAlgError
      else
        let covinv := A.det⁻¹ • A.adjugate
        .ok ((parameter_chunks.map (chi2_chunk st.interpolator covinv observed_feature)).flatten)

/-! ## Helper lemmas -/

/-- A successful `npSolve A B = Y` really solves the linear system:
`A * Y = B`. -/
theorem npSolve_sound {n m : ℕ} {A : Matrix (Fin n) (Fin n) ℚ} {B Y : Matrix (Fin n) (Fin m) ℚ}
    (h : npSolve A B = .ok Y) : A * Y = B := by
  unfold npSolve at h
  split at h
  · cases h
  · rename_i hd
    cases h
    rw [Matrix.mul_smul, ← Matrix.mul_assoc, Matrix.mul_adjugate, Matrix.smul_mul,
      Matrix.one_mul, smul_smul, inv_mul_cancel₀ hd, one_smul]

/-- `npSolve` succeeds exactly on a nonsingular matrix. -/
theorem npSolve_of_det_ne {n m : ℕ} {A : Matrix (Fin n) (Fin n) ℚ} (B : Matrix (Fin n) (Fin m) ℚ)
    (hd : A.det ≠ 0) : npSolve A B = .ok (A.det⁻¹ • (A.adjugate * B)) := by
  simp [npSolve, hd]

/-! ## Base-class construction (claims on `Analysis.__init__`) -/

/-- C10: the base `Analysis` class can never be instantiated directly — with
the base class tag (`_analysis_type is None`) every argument combination
fails the first assert, before any state is stored — while the `"Fisher"`
and `"Likelihood"` subclass tags construct fine. -/
theorem analysis_base_never_instantiates :
    (∀ ps ts : Option (List (List ℚ)), Analysis.init none ps ts =
      .error (.assertionError "Don't instantiate this class directly, use one of its subclasses!")) ∧
    Analysis.init (some "Fisher") none none = .ok ⟨"Fisher", none, none⟩ ∧
    Analysis.init (some "Likelihood") none none = .ok ⟨"Likelihood", none, none⟩ := by
  refine ⟨fun ps ts => rfl, rfl, rfl⟩

/-- C9 counterexample: seeding a (subclass) construction with only a
parameter set and no training set does NOT fail — the shape assert at line
106 only fires when both arrays are supplied — so construction succeeds
storing the one given array. -/
theorem init_single_array_accepted :
    Analysis.init (some "Fisher") (some [[(0:ℚ)]]) none = .ok ⟨"Fisher", some [[(0:ℚ)]], none⟩ := rfl

/-- C9 amended: construction fails (with the shape-mismatch assert) only
when both seed arrays are supplied and their first-axis lengths differ; in
every other combination — both arrays with equal lengths, exactly one
array, or neither — construction succeeds and stores exactly the arrays
that were given. -/
theorem init_shape_check_behaviour (t : String) (ps ts : List (List ℚ)) :
    Analysis.init (some t) (some ps) (some ts) =
      (if ps.length = ts.length then .ok ⟨t, some ps, some ts⟩
       else .error (.assertionError "There should be one feature for each of the simulated models!")) ∧
    Analysis.init (some t) (some ps) none = .ok ⟨t, some ps, none⟩ ∧
    Analysis.init (some t) none (some ts) = .ok ⟨t, none, some ts⟩ ∧
    Analysis.init (some t) none none = .ok ⟨t, none, none⟩ := by
  refine ⟨rfl, rfl, rfl, rfl⟩

/-! ## Derivative-cache staleness (claim C5) -/

/-- A concrete 3-model, 2-parameter, 1-bin Fisher analysis with derivatives
already computed and cached under fiducial index 0 (models 1 and 2 vary
parameters 0 and 1 respectively, with derivative rows 2 and 3). -/
def staleExample : FisherAnalysis 3 2 1 where
  parameter_set := ![![0, 0], ![1, 0], ![0, 1]]
  training_set := ![![0], ![2], ![3]]
  fiducial := 0
  derivatives := some ([fun _ => 2, fun _ => 3], [0, 1])

/-- The same analysis after `set_fiducial(1)`. -/
def staleExample2 : FisherAnalysis 3 2 1 :=
  { staleExample with fiducial := 1 }

/-- C5 counterexample: `set_fiducial` does not invalidate the cached
derivatives.  After switching the fiducial to model 1, the cache is still
the one computed under fiducial 0, `get_varied` answers from it, and
`fit`/`fisher_matrix` would reuse it through `cachedDerivatives` — even
though actually recomputing the derivatives from the current state fails
(model 2 varies two parameters with respect to the new fiducial), so no
recomputation can have happened. -/
theorem set_fiducial_stale_cache :
    FisherAnalysis.set_fiducial staleExample 1 = .ok staleExample2 ∧
    staleExample2.derivatives = some ([fun _ => 2, fun _ => 3], [0, 1]) ∧
    staleExample2.get_varied = .ok [0, 1] ∧
    staleExample2.cachedDerivatives = .ok ([fun _ => 2, fun _ => 3], [0, 1]) ∧
    staleExample2.compute_derivatives =
      .error (.assertionError "You must vary one parameter at a time!") := by
  refine ⟨rfl, rfl, rfl, rfl, rfl⟩

/-- C5 amended: neither `set_fiducial` nor `add_model` clears the
`derivatives` attribute.  After a successful `set_fiducial`, and likewise
after `add_model` appends a new model, the previously cached derivatives
and varied list are retained unchanged, and `get_varied`, `fit` and
`fisher_matrix` (through `cachedDerivatives`) keep using them instead of
recomputing; derivatives are recomputed only when no cache exists or
`compute_derivatives` is called explicitly. -/
theorem set_fiducial_add_model_retain_cache {p q N : ℕ} (st : FisherAnalysis p q N) (n : ℕ)
    (dv : List (Fin N → ℚ) × List ℕ) (prm : Fin q → ℚ) (ft : Fin N → ℚ)
    (hn : n < p) (hc : st.derivatives = some dv) :
    st.set_fiducial n = .ok { st with fiducial := n } ∧
    ({ st with fiducial := n } : FisherAnalysis p q N).derivatives = some dv ∧
    FisherAnalysis.get_varied { st with fiducial := n } = .ok dv.2 ∧
    FisherAnalysis.cachedDerivatives { st with fiducial := n } = .ok dv ∧
    (st.add_model prm ft).derivatives = some dv ∧
    (st.add_model prm ft).get_varied = .ok dv.2 ∧
    (st.add_model prm ft).cachedDerivatives = .ok dv := by
  refine ⟨by simp [FisherAnalysis.set_fiducial, hn], by simpa using hc, ?_, ?_, ?_, ?_, ?_⟩
  · unfold FisherAnalysis.get_varied
    simp only [hc]
  · unfold FisherAnalysis.cachedDerivatives
    simp only [hc]
  · simpa [FisherAnalysis.add_model] using hc
  · unfold FisherAnalysis.get_varied
    simp only [FisherAnalysis.add_model, hc]
  · unfold FisherAnalysis.cachedDerivatives
    simp only [FisherAnalysis.add_model, hc]

/-- Witness for the amended C5 theorem at the concrete example: switching
the fiducial and appending the model `[5,5] ↦ [7]` both leave the cache in
place and `get_varied` still answers from it. -/
theorem set_fiducial_add_model_retain_cache_witness :
    (1 < 3 ∧ staleExample.derivatives = some ([fun _ => 2, fun _ => 3], [0, 1])) ∧
    FisherAnalysis.get_varied { staleExample with fiducial := 1 } = .ok [0, 1] ∧
    (staleExample.add_model ![5, 5] ![7]).get_varied = .ok [0, 1] := by
  have h := set_fiducial_add_model_retain_cache staleExample 1
    ([fun _ => 2, fun _ => 3], [0, 1]) ![5, 5] ![7] (by decide) rfl
  exact ⟨⟨by decide, rfl⟩, h.2.2.1, h.2.2.2.2.2.1⟩

/-! ## Fisher matrix and fit formulas (claims C3, C4) -/

instance {ε α : Type} [DecidableEq ε] [DecidableEq α] : DecidableEq (Except ε α) := fun x y =>
  match x, y with
  | .ok a, .ok b =>
    if h : a = b then isTrue (by rw [h]) else isFalse (by intro hc; cases hc; exact h rfl)
  | .error a, .error b =>
    if h : a = b then isTrue (by rw [h]) else isFalse (by intro hc; cases hc; exact h rfl)
  | .ok _, .error _ => isFalse (by intro hc; cases hc)
  | .error _, .ok _ => isFalse (by intro hc; cases hc)

@[simp]
theorem rowsMatrix_apply {N : ℕ} (rows : List (Fin N → ℚ)) (k : Fin rows.length) (b : Fin N) :
    rowsMatrix rows k b = rows.get k b := rfl

/-- Evaluation lemma for `fisher_matrix` with `observed_features_covariance
= None`, for both covariance shapes. -/
theorem fisher_matrix_eval {p q N : ℕ} (st : FisherAnalysis p q N)
    (rows : List (Fin N → ℚ)) (varied : List ℕ) (A : Matrix (Fin N) (Fin N) ℚ)
    (Y : Matrix (Fin N) (Fin rows.length) ℚ) (d : Fin N → ℚ)
    (hD : st.cachedDerivatives = .ok (rows, varied))
    (hY : npSolve A (rowsMatrix rows).transpose = .ok Y)
    (hd : ∀ b, d b ≠ 0) :
    (A * Y = (rowsMatrix rows).transpose ∧
      st.fisher_matrix (.full A) none = .ok ⟨rows.length, rowsMatrix rows * Y⟩) ∧
    st.fisher_matrix (.diag d) none =
      .ok ⟨rows.length, rowsMatrix rows * diagY d (rowsMatrix rows)⟩ := by
  refine ⟨⟨npSolve_sound hY, ?_⟩, ?_⟩
  · simp only [FisherAnalysis.fisher_matrix, hD, covSolveY, hY]
  · simp only [FisherAnalysis.fisher_matrix, hD, covSolveY]

/-- The synthetic design of spec section 8: 2 parameters, 3 models, 2
feature bins; fiducial `[0,0] ↦ [1,2]`, model A `[1,0] ↦ [3,2]`, model B
`[0,1] ↦ [1,5]`; closed-form derivatives `[2,0]` and `[0,3]`.  No cached
derivatives, so `fit`/`fisher_matrix` compute them on the fly. -/
def specExample : FisherAnalysis 3 2 2 where
  parameter_set := ![![0, 0], ![1, 0], ![0, 1]]
  training_set := ![![1, 2], ![3, 2], ![1, 5]]
  fiducial := 0
  derivatives := none

def c3rows : List (Fin 2 → ℚ) := [![2, 0], ![0, 3]]

/-- The spec-section-8 design with its derivatives already computed and
cached (as `compute_derivatives` leaves them). -/
def specExampleCached : FisherAnalysis 3 2 2 :=
  { specExample with derivatives := some (c3rows, [0, 1]) }

def c3A : Matrix (Fin 2) (Fin 2) ℚ := !![1, 0; 0, 1]

def c3Y : Matrix (Fin 2) (Fin c3rows.length) ℚ :=
  c3A.det⁻¹ • (c3A.adjugate * (rowsMatrix c3rows).transpose)

def c3d : Fin 2 → ℚ := ![1, 2]



/-- Evaluation lemma for `fit`, for both covariance shapes. -/
theorem fit_eval {p q N : ℕ} (st : FisherAnalysis p q N)
    (rows : List (Fin N → ℚ)) (varied : List ℕ) (obs : Fin N → ℚ)
    (A : Matrix (Fin N) (Fin N) ℚ) (Y : Matrix (Fin N) (Fin rows.length) ℚ)
    (M Md : Matrix (Fin rows.length) (Fin N) ℚ) (d : Fin N → ℚ) (vf : List (Fin q))
    (hD : st.cachedDerivatives = .ok (rows, varied))
    (hf : st.fiducial < p)
    (hvf : varied.mapM (finIdx q) = some vf)
    (hlen : vf.length = rows.length)
    (hY : npSolve A (rowsMatrix rows).transpose = .ok Y)
    (hM : npSolve (rowsMatrix rows * Y) Y.transpose = .ok M)
    (hd : ∀ b, d b ≠ 0)
    (hMd : npSolve (rowsMatrix rows * diagY d (rowsMatrix rows))
      (diagY d (rowsMatrix rows)).transpose = .ok Md) :
    A * Y = (rowsMatrix rows).transpose ∧
    rowsMatrix rows * Y * M = Y.transpose ∧
    st.fit obs (.full A) = .ok (List.zipWith (fun a b => a + b)
      (vf.map fun j => st.parameter_set ⟨st.fiducial, hf⟩ j)
      (List.ofFn (M.mulVec fun b => obs b - st.training_set ⟨st.fiducial, hf⟩ b))) ∧
    rowsMatrix rows * diagY d (rowsMatrix rows) * Md = (diagY d (rowsMatrix rows)).transpose ∧
    st.fit obs (.diag d) = .ok (List.zipWith (fun a b => a + b)
      (vf.map fun j => st.parameter_set ⟨st.fiducial, hf⟩ j)
      (List.ofFn (Md.mulVec fun b => obs b - st.training_set ⟨st.fiducial, hf⟩ b))) := by
  refine ⟨npSolve_sound hY, npSolve_sound hM, ?_, npSolve_sound hMd, ?_⟩
  · simp only [FisherAnalysis.fit, hD, covSolveY, hY, hM]
    rw [dif_pos hf]
    simp only [hvf]
    rw [if_pos hlen]
  · simp only [FisherAnalysis.fit, hD, covSolveY, hMd]
    rw [dif_pos hf]
    simp only [hvf]
    rw [if_pos hlen]

/-- C3: with `observed_features_covariance = None`, `fisher_matrix` returns
exactly the raw information matrix `XY = derivatives · solve(cov,
derivatives.T)` for a full covariance (`Y` is the genuine solution of the
linear system, as witnessed by the first conjunct), and `derivatives ·
(derivatives.T scaled row-wise by the reciprocal covariance entries)` for a
rank-1 diagonal covariance.  The derivatives come from the cache or are
computed on the fly (`cachedDerivatives`); the nonzero-entries hypothesis
on the diagonal covariance keeps the `ℚ` model faithful to numpy (where a
zero entry would give an infinite reciprocal, unrepresentable here). -/
theorem fisher_matrix_formula {p q N : ℕ} (st : FisherAnalysis p q N)
    (rows : List (Fin N → ℚ)) (varied : List ℕ) (A : Matrix (Fin N) (Fin N) ℚ)
    (Y : Matrix (Fin N) (Fin rows.length) ℚ) (d : Fin N → ℚ)
    (hD : st.cachedDerivatives = .ok (rows, varied))
    (hY : npSolve A (rowsMatrix rows).transpose = .ok Y)
    (hd : ∀ b, d b ≠ 0) :
    (A * Y = (rowsMatrix rows).transpose ∧
      st.fisher_matrix (.full A) none = .ok ⟨rows.length, rowsMatrix rows * Y⟩) ∧
    st.fisher_matrix (.diag d) none =
      .ok ⟨rows.length, rowsMatrix rows * diagY d (rowsMatrix rows)⟩ :=
  fisher_matrix_eval st rows varied A Y d hD hY hd

/-- C4: `fit` returns the fiducial parameter values restricted to the varied
indices plus `M · (observed_feature - fiducial_feature)`, where `Y` solves
`covariance · Y = derivatives.T` (replaced by the reciprocal-scaled
transpose for a diagonal covariance), `XY = derivatives · Y` and `M` solves
`XY · M = Y.T` (the solution facts are the accompanying conjuncts);
derivatives are taken from the cache or computed first (`cachedDerivatives`).
The nonzero hypothesis on the diagonal entries keeps `ℚ` faithful to numpy
reciprocals, as in the fisher-matrix theorem. -/
theorem fit_formula {p q N : ℕ} (st : FisherAnalysis p q N)
    (rows : List (Fin N → ℚ)) (varied : List ℕ) (obs : Fin N → ℚ)
    (A : Matrix (Fin N) (Fin N) ℚ) (Y : Matrix (Fin N) (Fin rows.length) ℚ)
    (M Md : Matrix (Fin rows.length) (Fin N) ℚ) (d : Fin N → ℚ) (vf : List (Fin q))
    (hD : st.cachedDerivatives = .ok (rows, varied))
    (hf : st.fiducial < p)
    (hvf : varied.mapM (finIdx q) = some vf)
    (hlen : vf.length = rows.length)
    (hY : npSolve A (rowsMatrix rows).transpose = .ok Y)
    (hM : npSolve (rowsMatrix rows * Y) Y.transpose = .ok M)
    (hd : ∀ b, d b ≠ 0)
    (hMd : npSolve (rowsMatrix rows * diagY d (rowsMatrix rows))
      (diagY d (rowsMatrix rows)).transpose = .ok Md) :
    A * Y = (rowsMatrix rows).transpose ∧
    rowsMatrix rows * Y * M = Y.transpose ∧
    st.fit obs (.full A) = .ok (List.zipWith (fun a b => a + b)
      (vf.map fun j => st.parameter_set ⟨st.fiducial, hf⟩ j)
      (List.ofFn (M.mulVec fun b => obs b - st.training_set ⟨st.fiducial, hf⟩ b))) ∧
    rowsMatrix rows * diagY d (rowsMatrix rows) * Md = (diagY d (rowsMatrix rows)).transpose ∧
    st.fit obs (.diag d) = .ok (List.zipWith (fun a b => a + b)
      (vf.map fun j => st.parameter_set ⟨st.fiducial, hf⟩ j)
      (List.ofFn (Md.mulVec fun b => obs b - st.training_set ⟨st.fiducial, hf⟩ b))) :=
  fit_eval st rows varied obs A Y M Md d vf hD hf hvf hlen hY hM hd hMd

/-- Witness for C3 on the concrete 2-parameter, 3-model example of the
spec, with the identity as full covariance and `[1,2]` as diagonal
covariance. -/
theorem fisher_matrix_formula_witness :
    (specExampleCached.cachedDerivatives = .ok (c3rows, [0, 1]) ∧ c3A.det ≠ 0 ∧ ∀ b, c3d b ≠ 0) ∧
    (c3A * c3Y = (rowsMatrix c3rows).transpose ∧
      specExampleCached.fisher_matrix (.full c3A) none =
        .ok ⟨c3rows.length, rowsMatrix c3rows * c3Y⟩) ∧
    specExampleCached.fisher_matrix (.diag c3d) none =
      .ok ⟨c3rows.length, rowsMatrix c3rows * diagY c3d (rowsMatrix c3rows)⟩ := by
  have hdet : c3A.det ≠ 0 := by norm_num [c3A, Matrix.det_fin_two_of]
  have hd : ∀ b, c3d b ≠ 0 := by decide
  exact ⟨⟨rfl, hdet, hd⟩,
    fisher_matrix_formula specExampleCached c3rows [0, 1] c3A c3Y c3d rfl
      (npSolve_of_det_ne _ hdet) hd⟩

/-- A 2-model, 1-parameter, 1-bin analysis with consistent cached
derivatives: fiducial `[0] ↦ [1]`, second model `[1] ↦ [3]`, derivative row
`[2]` varying parameter 0. -/
def fitExample : FisherAnalysis 2 1 1 where
  parameter_set := ![![0], ![1]]
  training_set := ![![1], ![3]]
  fiducial := 0
  derivatives := some ([fun _ => 2], [0])

def c4rows : List (Fin 1 → ℚ) := [fun _ => 2]

@[simp]
theorem rowsMatrix_singleton {N : ℕ} (f : Fin N → ℚ) (k : Fin ([f] : List (Fin N → ℚ)).length)
    (b : Fin N) : rowsMatrix [f] k b = f b := by
  obtain ⟨kv, hk⟩ := k
  have hkv : kv = 0 := by
    simpa using Nat.lt_one_iff.mp (by simpa using hk)
  subst hkv
  rfl

def c4A : Matrix (Fin 1) (Fin 1) ℚ := !![2]

def c4Y : Matrix (Fin 1) (Fin 1) ℚ :=
  c4A.det⁻¹ • (c4A.adjugate * (rowsMatrix c4rows).transpose)

def c4XY : Matrix (Fin 1) (Fin 1) ℚ := rowsMatrix c4rows * c4Y

def c4M : Matrix (Fin 1) (Fin 1) ℚ := c4XY.det⁻¹ • (c4XY.adjugate * c4Y.transpose)

def c4d : Fin 1 → ℚ := ![4]

def c4Yd : Matrix (Fin 1) (Fin 1) ℚ := diagY c4d (rowsMatrix c4rows)

def c4XYd : Matrix (Fin 1) (Fin 1) ℚ := rowsMatrix c4rows * c4Yd

def c4Md : Matrix (Fin 1) (Fin 1) ℚ := c4XYd.det⁻¹ • (c4XYd.adjugate * c4Yd.transpose)

def c4obs : Fin 1 → ℚ := ![5]

/-- Witness for C4 at the concrete cached example, with a full covariance
`[[2]]` and a diagonal covariance `[4]`. -/
theorem fit_formula_witness :
    (fitExample.cachedDerivatives = .ok (c4rows, [0]) ∧ fitExample.fiducial < 2 ∧
      ([0] : List ℕ).mapM (finIdx 1) = some [0] ∧ ([0] : List (Fin 1)).length = c4rows.length ∧
      c4A.det ≠ 0 ∧ (∀ b, c4d b ≠ 0)) ∧
    (∃ r1 r2 : List ℚ, fitExample.fit c4obs (.full c4A) = .ok r1 ∧
      fitExample.fit c4obs (.diag c4d) = .ok r2) := by
  have hdetA : c4A.det ≠ 0 := by norm_num [c4A, Matrix.det_fin_one]
  have hd : ∀ b, c4d b ≠ 0 := by decide
  have hdet2 : c4XY.det ≠ 0 := by
    rw [Matrix.det_fin_one, c4XY, Matrix.mul_apply, Fin.sum_univ_one, c4Y]
    simp only [Matrix.smul_apply, Matrix.mul_apply, Fin.sum_univ_one, Matrix.transpose_apply,
      Matrix.adjugate_fin_one, Matrix.det_fin_one, Matrix.one_apply]
    simp only [c4rows, rowsMatrix_singleton, if_true, smul_eq_mul]
    norm_num [c4A]
  have hdetd : c4XYd.det ≠ 0 := by
    rw [Matrix.det_fin_one, c4XYd, Matrix.mul_apply, Fin.sum_univ_one, c4Yd]
    simp only [diagY, Matrix.of_apply, Matrix.transpose_apply]
    simp only [c4rows, rowsMatrix_singleton]
    norm_num [c4d]
  have h := fit_formula fitExample c4rows [0] c4obs c4A c4Y c4M c4Md c4d [0]
    rfl (by decide) rfl rfl (npSolve_of_det_ne _ hdetA) (npSolve_of_det_ne _ hdet2)
    hd (npSolve_of_det_ne _ hdetd)
  exact ⟨⟨rfl, by decide, rfl, rfl, hdetA, hd⟩, ⟨_, _, h.2.2.1, h.2.2.2.2⟩⟩
/-! ## Chunked chi2 evaluation (claims C6, C7, C8) -/

/-- Splitting a list of length `m * l` into `m` contiguous chunks of length
`l` (chunk `n` covering positions `[n*l, (n+1)*l)`) and flattening
reassembles the original list. -/
theorem flatten_chunks {α : Type} (m : ℕ) (l : ℕ) (xs : List α) (h : xs.length = m * l) :
    ((List.range m).map fun n => (xs.drop (n * l)).take l).flatten = xs := by
  induction m generalizing xs with
  | zero =>
    have hx : xs = [] := List.eq_nil_of_length_eq_zero (by simpa using h)
    simp [hx]
  | succ m ih =>
    rw [List.range_succ_eq_map, List.map_cons, List.map_map, List.flatten_cons]
    have hmap : ((List.range m).map ((fun n => (xs.drop (n * l)).take l) ∘ Nat.succ)) =
        (List.range m).map fun n => ((xs.drop l).drop (n * l)).take l := by
      refine List.map_congr_left fun n _ => ?_
      simp only [Function.comp_apply, List.drop_drop]
      rw [Nat.succ_mul, Nat.add_comm]
    rw [hmap, ih (xs.drop l) (by simp [h, Nat.succ_mul, Nat.add_comm])]
    simpa using List.take_append_drop l xs

/-- C6: for a batch of parameter points and a positive `split_chunks` that
evenly divides the batch size, `chi2` returns exactly the same result as
the unchunked call — same values, same order — for every covariance
argument and interpolator bank (the covariance inverse is computed once,
after the chunk split, in both runs). -/
theorem chi2_split_chunks_eq {q N : ℕ} (st : LikelihoodAnalysis q N)
    (parameters : List (Fin q → ℚ)) (observed_feature : Fin N → ℚ) (cov : Cov N) (k : ℤ)
    (hk : 0 < k) (hdvd : (k : ℤ) ∣ (parameters.length : ℤ)) :
    st.chi2 parameters observed_feature cov (some k) =
      st.chi2 parameters observed_feature cov none := by
  cases cov with
  | diag d => rfl
  | full A =>
    have hkz : ((k.toNat : ℤ)) = k := Int.toNat_of_nonneg (le_of_lt hk)
    have hdvdn : k.toNat ∣ parameters.length := by
      rw [← Int.natCast_dvd_natCast, hkz]
      exact hdvd
    have hmod : (parameters.length : ℤ) % k = 0 := Int.emod_eq_zero_of_dvd hdvd
    have hlen : parameters.length = k.toNat * (parameters.length / k.toNat) :=
      (Nat.mul_div_cancel' hdvdn).symm
    simp only [LikelihoodAnalysis.chi2]
    rw [if_pos hk, if_pos hmod]
    dsimp only
    by_cases hdet : A.det = 0
    · rw [if_pos hdet, if_pos hdet]
    · rw [if_neg hdet, if_neg hdet]
      congr 1
      simp only [List.map_cons, List.map_nil, List.flatten_cons, List.flatten_nil,
        List.append_nil]
      rw [show chi2_chunk st.interpolator (A.det⁻¹ • A.adjugate) observed_feature =
          List.map (chi2_point st.interpolator (A.det⁻¹ • A.adjugate) observed_feature) from
        funext fun l => rfl]
      rw [← List.map_flatten, flatten_chunks k.toNat (parameters.length / k.toNat) parameters hlen]

def c6st : LikelihoodAnalysis 1 1 := ⟨fun _ x => x 0⟩

def c6params : List (Fin 1 → ℚ) := [fun _ => 1, fun _ => 2, fun _ => 3, fun _ => 4]

def c6obs : Fin 1 → ℚ := fun _ => 2

def c6A : Matrix (Fin 1) (Fin 1) ℚ := !![1]

/-- Witness for C6: a batch of 4 points split into 2 chunks. -/
theorem chi2_split_chunks_eq_witness :
    ((0 : ℤ) < 2 ∧ (2 : ℤ) ∣ (c6params.length : ℤ)) ∧
    c6st.chi2 c6params c6obs (.full c6A) (some 2) = c6st.chi2 c6params c6obs (.full c6A) none :=
  ⟨⟨by decide, by decide⟩,
    chi2_split_chunks_eq c6st c6params c6obs (.full c6A) 2 (by decide) (by decide)⟩

/-- C7 amended: a non-positive `split_chunks` raises `ValueError`; a
positive `split_chunks` that does not evenly divide the number of parameter
points fails the assert at line 450 — an `AssertionError`, not a
`ValueError`.  In both cases the error is raised while chunking the batch,
before the covariance is inverted or any chi-squared value is computed, so
no values are returned. -/
theorem chi2_split_chunks_invalid {q N : ℕ} (st : LikelihoodAnalysis q N)
    (parameters : List (Fin q → ℚ)) (observed_feature : Fin N → ℚ)
    (A : Matrix (Fin N) (Fin N) ℚ) (k : ℤ) :
    (k ≤ 0 → st.chi2 parameters observed_feature (.full A) (some k) =
      .error (.valueError "split_chunks must be >0!!")) ∧
    (0 < k → ¬ (k ∣ (parameters.length : ℤ)) →
      st.chi2 parameters observed_feature (.full A) (some k) =
        .error (.assertionError "split_chunks must divide exactly the number of points!!")) := by
  constructor
  · intro hk
    simp only [LikelihoodAnalysis.chi2]
    rw [if_neg (by omega : ¬ (0 : ℤ) < k)]
  · intro hk hdvd
    simp only [LikelihoodAnalysis.chi2]
    rw [if_pos hk, if_neg fun hmod => hdvd (Int.dvd_of_emod_eq_zero hmod)]

def c7st : LikelihoodAnalysis 1 1 := ⟨fun _ _ => 0⟩

def c7params : List (Fin 1 → ℚ) := [fun _ => 0, fun _ => 0, fun _ => 0]

def c7obs : Fin 1 → ℚ := fun _ => 0

def c7call : Except PyErr (List ℚ) := c7st.chi2 c7params c7obs (.full !![1]) (some 2)

/-- C7 counterexample: with 3 parameter points and `split_chunks = 2`, the
failure is the bare divisibility assert — an `AssertionError` — and not a
`ValueError` of any message, contradicting the claim that a non-dividing
positive `split_chunks` raises `ValueError`. -/
theorem chi2_split_chunks_not_valueError :
    c7call = .error (.assertionError "split_chunks must divide exactly the number of points!!") ∧
    ¬ ∃ msg, c7call = .error (.valueError msg) := by
  have h : c7call = .error (.assertionError "split_chunks must divide exactly the number of points!!") := rfl
  refine ⟨h, ?_⟩
  rintro ⟨msg, hm⟩
  rw [h] at hm
  injection hm with hmm
  exact PyErr.noConfusion hmm

/-- Witness for the amended C7 theorem: `split_chunks = -1` gives the
`ValueError`, `split_chunks = 2` on a 3-point batch gives the assert. -/
theorem chi2_split_chunks_invalid_witness :
    ((-1 : ℤ) ≤ 0 ∧ c7st.chi2 c7params c7obs (.full !![1]) (some (-1)) =
      .error (.valueError "split_chunks must be >0!!")) ∧
    ((0 : ℤ) < 2 ∧ ¬ ((2 : ℤ) ∣ (c7params.length : ℤ)) ∧
      c7st.chi2 c7params c7obs (.full !![1]) (some 2) =
        .error (.assertionError "split_chunks must divide exactly the number of points!!")) :=
  ⟨⟨by decide, (chi2_split_chunks_invalid c7st c7params c7obs !![1] (-1)).1 (by decide)⟩,
    ⟨by decide, by decide,
      (chi2_split_chunks_invalid c7st c7params c7obs !![1] 2).2 (by decide) (by decide)⟩⟩

/-- The Fisher estimator accepts the diagonal covariance shape that `chi2`
rejects: at the concrete cached example, `fit` with the rank-1 covariance
`[4]` succeeds. -/
theorem fitExample_diag_accepted : ∃ r : List ℚ, fitExample.fit c4obs (.diag c4d) = .ok r := by
  have hdetA : c4A.det ≠ 0 := by norm_num [c4A, Matrix.det_fin_one]
  have hd : ∀ b, c4d b ≠ 0 := by decide
  have hdet2 : c4XY.det ≠ 0 := by
    rw [Matrix.det_fin_one, c4XY, Matrix.mul_apply, Fin.sum_univ_one, c4Y]
    simp only [Matrix.smul_apply, Matrix.mul_apply, Fin.sum_univ_one, Matrix.transpose_apply,
      Matrix.adjugate_fin_one, Matrix.det_fin_one, Matrix.one_apply]
    simp only [c4rows, rowsMatrix_singleton, if_true, smul_eq_mul]
    norm_num [c4A]
  have hdetd : c4XYd.det ≠ 0 := by
    rw [Matrix.det_fin_one, c4XYd, Matrix.mul_apply, Fin.sum_univ_one, c4Yd]
    simp only [diagY, Matrix.of_apply, Matrix.transpose_apply]
    simp only [c4rows, rowsMatrix_singleton]
    norm_num [c4d]
  have h := fit_eval fitExample c4rows [0] c4obs c4A c4Y c4M c4Md c4d [0]
    rfl (by decide) rfl rfl (npSolve_of_det_ne _ hdetA) (npSolve_of_det_ne _ hdet2)
    hd (npSolve_of_det_ne _ hdetd)
  exact ⟨_, h.2.2.2.2⟩

/-- C8: `chi2` only accepts a full (feature-shape squared) covariance: for
every rank-1 diagonal covariance it fails the bare shape assert at line 432
(whatever the batch, observed feature, interpolators, or chunking argument),
while `fit` and `fisher_matrix` accept the very same diagonal shape, as the
concrete conjuncts show. -/
theorem chi2_rejects_diagonal_covariance {q N : ℕ} (st : LikelihoodAnalysis q N)
    (parameters : List (Fin q → ℚ)) (observed_feature : Fin N → ℚ) (d : Fin N → ℚ)
    (split_chunks : Option ℤ) :
    st.chi2 parameters observed_feature (.diag d) split_chunks = .error (.assertionError "") ∧
    (∃ r : List ℚ, fitExample.fit c4obs (.diag c4d) = .ok r) ∧
    fitExample.fisher_matrix (.diag c4d) none =
      .ok ⟨c4rows.length, rowsMatrix c4rows * diagY c4d (rowsMatrix c4rows)⟩ :=
  ⟨rfl, fitExample_diag_accepted, rfl⟩

/-! ## compute_derivatives: correctness and invalid designs (claims C1, C2) -/

/-- `find?` returns the unique element satisfying the predicate. -/
theorem find?_eq_some_of_unique {α : Type} {l : List α} {pr : α → Bool} {a : α}
    (ha : a ∈ l) (hp : ∀ x ∈ l, pr x = true ↔ x = a) : l.find? pr = some a := by
  induction l with
  | nil => cases ha
  | cons b t ih =>
    by_cases hb : pr b = true
    · have hba : b = a := (hp b (List.mem_cons_self b t)).mp hb
      rw [List.find?_cons_of_pos t hb, hba]
    · have hba : b ≠ a := fun he => hb ((hp b (List.mem_cons_self b t)).mpr he)
      have hat : a ∈ t := by
        rcases List.mem_cons.mp ha with h1 | h1
        · exact absurd h1.symm hba
        · exact h1
      rw [List.find?_cons_of_neg t hb]
      exact ih hat fun x hx => hp x (List.mem_cons_of_mem b hx)

/-- The varied index of a model that varies exactly one parameter is
unique. -/
theorem variesExactlyOne_unique {p q : ℕ} {pset : Fin p → Fin q → ℚ} {fid i : Fin p}
    {j j2 : Fin q} (h1 : variesExactlyOne pset fid i j) (h2 : variesExactlyOne pset fid i j2) :
    j = j2 := by
  by_contra hne
  exact h1.1 (h2.2 j (fun he => hne he))

/-- A model varying exactly parameter `j`, not yet in the varied list,
passes all the checks of the loop body and produces the finite-difference
row for `j`. -/
theorem derivStep_ok_of_varies {p q N : ℕ} {pset : Fin p → Fin q → ℚ} {tset : Fin p → Fin N → ℚ}
    {fid i : Fin p} {j : Fin q} {varied : List ℕ}
    (h : variesExactlyOne pset fid i j) (hnv : j.val ∉ varied) :
    derivStep pset tset fid varied i =
      .ok (fun b => (tset i b - tset fid b) / (pset i j - pset fid j), j.val) := by
  have hset : (Finset.univ.filter fun j2 => pset i j2 = pset fid j2) = Finset.univ.erase j := by
    ext x
    simp only [Finset.mem_filter, Finset.mem_univ, true_and, Finset.mem_erase, and_true]
    constructor
    · intro hx hxj
      exact h.1 (hxj ▸ hx)
    · intro hx
      exact h.2 x hx
  have hcard : (Finset.univ.filter fun j2 => pset i j2 = pset fid j2).card + 1 = q := by
    rw [hset, Finset.card_erase_of_mem (Finset.mem_univ j), Finset.card_univ, Fintype.card_fin]
    have := j.pos
    omega
  have hfind : (List.finRange q).find? (fun j2 => decide (pset i j2 ≠ pset fid j2)) = some j := by
    refine find?_eq_some_of_unique (List.mem_finRange j) fun x _ => ?_
    simp only [decide_eq_true_eq]
    constructor
    · intro hx
      by_contra hxj
      exact hx (h.2 x hxj)
    · intro hx
      exact hx ▸ h.1
  simp only [derivStep]
  rw [if_pos hcard, hfind]
  dsimp only
  rw [if_neg hnv]

/-- A successful loop body yields the varied index of a model that varies
exactly one parameter, an index not yet in the varied list. -/
theorem derivStep_ok_sound {p q N : ℕ} {pset : Fin p → Fin q → ℚ} {tset : Fin p → Fin N → ℚ}
    {fid i : Fin p} {varied : List ℕ} {row : Fin N → ℚ} {jv : ℕ}
    (h : derivStep pset tset fid varied i = .ok (row, jv)) :
    ∃ j : Fin q, variesExactlyOne pset fid i j ∧ jv = j.val ∧ j.val ∉ varied := by
  simp only [derivStep] at h
  split at h
  · rename_i hcard
    split at h
    · cases h
    · rename_i j hfind
      split at h
      · cases h
      · rename_i hmem
        have hj : pset i j ≠ pset fid j := by
          have := List.find?_some hfind
          simpa using this
        have hrest : ∀ j2, j2 ≠ j → pset i j2 = pset fid j2 := by
          intro j2 hne
          by_contra hj2
          have hsub : (Finset.univ.filter fun x => pset i x = pset fid x) ⊆
              (Finset.univ.erase j).erase j2 := by
            intro x hx
            rw [Finset.mem_filter] at hx
            rw [Finset.mem_erase, Finset.mem_erase]
            refine ⟨fun he => hj2 (he ▸ hx.2), fun he => hj (he ▸ hx.2), Finset.mem_univ x⟩
          have hle := Finset.card_le_card hsub
          rw [Finset.card_erase_of_mem (Finset.mem_erase.mpr ⟨hne, Finset.mem_univ j2⟩),
            Finset.card_erase_of_mem (Finset.mem_univ j), Finset.card_univ,
            Fintype.card_fin] at hle
          have := j.pos
          omega
        cases h
        exact ⟨j, ⟨hj, hrest⟩, rfl, hmem⟩
  · cases h

/-- The loop body only ever fails with one of the two design asserts: the
`IndexError` branch is unreachable because the count check guarantees a
differing index exists. -/
theorem derivStep_error {p q N : ℕ} {pset : Fin p → Fin q → ℚ} {tset : Fin p → Fin N → ℚ}
    {fid i : Fin p} {varied : List ℕ} {e : PyErr}
    (h : derivStep pset tset fid varied i = .error e) :
    e = .assertionError "You must vary one parameter at a time!" ∨
    e = .assertionError "You cannot vary a parameter twice!!" := by
  simp only [derivStep] at h
  split at h
  · rename_i hcard
    split at h
    · rename_i hfind
      exfalso
      have hall : ∀ x : Fin q, pset i x = pset fid x := by
        intro x
        have := List.find?_eq_none.mp hfind x (List.mem_finRange x)
        simpa using this
      have : (Finset.univ.filter fun j2 => pset i j2 = pset fid j2) = Finset.univ := by
        ext x
        simp [hall x]
      rw [this, Finset.card_univ, Fintype.card_fin] at hcard
      omega
    · split at h
      · cases h
        exact Or.inr rfl
      · cases h
  · cases h
    exact Or.inl rfl

/-- The loop over a list of non-fiducial models, each varying its own
distinct parameter (given by `v`) not yet in the accumulated varied list,
returns the finite-difference rows and appends the varied indices in
order. -/
theorem derivLoop_formula {p q N : ℕ} {pset : Fin p → Fin q → ℚ} {tset : Fin p → Fin N → ℚ}
    {fid : Fin p} (v : Fin p → Fin q) :
    ∀ (l : List (Fin p)) (varied : List ℕ),
    (∀ i ∈ l, variesExactlyOne pset fid i (v i)) →
    (∀ i ∈ l, (v i).val ∉ varied) →
    (∀ i ∈ l, ∀ i2 ∈ l, v i = v i2 → i = i2) →
    l.Nodup →
    derivLoop pset tset fid l varied =
      .ok (l.map fun i => fun b => (tset i b - tset fid b) / (pset i (v i) - pset fid (v i)),
        varied ++ l.map fun i => (v i).val)
  | [], varied, _, _, _, _ => by simp [derivLoop]
  | i :: rest, varied, hv, hnv, hinj, hnd => by
    have hstep := @derivStep_ok_of_varies p q N pset tset fid i (v i) varied
      (hv i (List.mem_cons_self i rest)) (hnv i (List.mem_cons_self i rest))
    have hirest : i ∉ rest := (List.nodup_cons.mp hnd).1
    have hrec := @derivLoop_formula p q N pset tset fid v rest (varied ++ [(v i).val])
      (fun i2 h2 => hv i2 (List.mem_cons_of_mem i h2))
      (fun i2 h2 => by
        intro hmem
        rcases List.mem_append.mp hmem with hm | hm
        · exact hnv i2 (List.mem_cons_of_mem i h2) hm
        · have hvv : (v i2).val = (v i).val := by simpa using hm
          have : i2 = i := hinj i2 (List.mem_cons_of_mem i h2) i (List.mem_cons_self i rest)
            (Fin.ext hvv)
          exact hirest (this ▸ h2)
        )
      (fun i2 h2 i3 h3 => hinj i2 (List.mem_cons_of_mem i h2) i3 (List.mem_cons_of_mem i h3))
      (List.nodup_cons.mp hnd).2
    simp only [derivLoop, hstep, hrec, List.map_cons]
    rw [List.append_assoc]
    rfl

/-- A loop failure is always one of the two design asserts. -/
theorem derivLoop_error {p q N : ℕ} {pset : Fin p → Fin q → ℚ} {tset : Fin p → Fin N → ℚ}
    {fid : Fin p} :
    ∀ {l : List (Fin p)} {varied : List ℕ} {e : PyErr},
    derivLoop pset tset fid l varied = .error e →
    e = .assertionError "You must vary one parameter at a time!" ∨
    e = .assertionError "You cannot vary a parameter twice!!"
  | [], _, _, h => by cases h
  | i :: rest, varied, e, h => by
    simp only [derivLoop] at h
    rcases hstep : derivStep pset tset fid varied i with e2 | pr
    · rw [hstep] at h
      cases h
      exact derivStep_error hstep
    · obtain ⟨row, jv⟩ := pr
      rw [hstep] at h
      dsimp only at h
      rcases hrec : derivLoop pset tset fid rest (varied ++ [jv]) with e3 | r
      · rw [hrec] at h
        cases h
        exact derivLoop_error hrec
      · rw [hrec] at h
        obtain ⟨rows, vfin⟩ := r
        cases h

/-- The loop never succeeds if some listed model's varied parameter is
already in the accumulated varied list. -/
theorem derivLoop_ne_ok_of_mem_varied {p q N : ℕ} {pset : Fin p → Fin q → ℚ}
    {tset : Fin p → Fin N → ℚ} {fid i : Fin p} {j : Fin q} :
    ∀ {l : List (Fin p)} {varied : List ℕ} {r},
    i ∈ l → variesExactlyOne pset fid i j → j.val ∈ varied →
    derivLoop pset tset fid l varied ≠ .ok r
  | [], _, _, hi, _, _ => by cases hi
  | a :: rest, varied, r, hi, hj, hjv => by
    intro h
    simp only [derivLoop] at h
    rcases hstep : derivStep pset tset fid varied a with e2 | ⟨row, jv⟩
    · rw [hstep] at h
      cases h
    · rw [hstep] at h
      dsimp only at h
      rcases hrec : derivLoop pset tset fid rest (varied ++ [jv]) with e3 | rr
      · rw [hrec] at h
        cases h
      · by_cases hai : a = i
        · subst hai
          obtain ⟨j0, hj0, _, hnin⟩ := derivStep_ok_sound hstep
          exact hnin ((variesExactlyOne_unique hj0 hj) ▸ hjv)
        · have hirest : i ∈ rest := by
            rcases List.mem_cons.mp hi with h1 | h1
            · exact absurd h1.symm hai
            · exact h1
          exact derivLoop_ne_ok_of_mem_varied hirest hj (List.mem_append_left _ hjv) hrec

/-- The loop never succeeds if some listed model varies no single parameter
(zero or at least two entries differ from the fiducial vector). -/
theorem derivLoop_ne_ok_of_no_vary {p q N : ℕ} {pset : Fin p → Fin q → ℚ}
    {tset : Fin p → Fin N → ℚ} {fid i : Fin p} :
    ∀ {l : List (Fin p)} {varied : List ℕ} {r},
    i ∈ l → (∀ j, ¬ variesExactlyOne pset fid i j) →
    derivLoop pset tset fid l varied ≠ .ok r
  | [], _, _, hi, _ => by cases hi
  | a :: rest, varied, r, hi, hno => by
    intro h
    simp only [derivLoop] at h
    rcases hstep : derivStep pset tset fid varied a with e2 | ⟨row, jv⟩
    · rw [hstep] at h
      cases h
    · rw [hstep] at h
      dsimp only at h
      rcases hrec : derivLoop pset tset fid rest (varied ++ [jv]) with e3 | rr
      · rw [hrec] at h
        cases h
      · by_cases hai : a = i
        · subst hai
          obtain ⟨j0, hj0, _, _⟩ := derivStep_ok_sound hstep
          exact hno j0 hj0
        · have hirest : i ∈ rest := by
            rcases List.mem_cons.mp hi with h1 | h1
            · exact absurd h1.symm hai
            · exact h1
          exact derivLoop_ne_ok_of_no_vary hirest hno hrec

/-- The loop never succeeds if two distinct listed models vary the same
parameter. -/
theorem derivLoop_ne_ok_of_dup {p q N : ℕ} {pset : Fin p → Fin q → ℚ}
    {tset : Fin p → Fin N → ℚ} {fid i i2 : Fin p} {j : Fin q} :
    ∀ {l : List (Fin p)} {varied : List ℕ} {r},
    i ∈ l → i2 ∈ l → i ≠ i2 →
    variesExactlyOne pset fid i j → variesExactlyOne pset fid i2 j →
    derivLoop pset tset fid l varied ≠ .ok r
  | [], _, _, hi, _, _, _, _ => by cases hi
  | a :: rest, varied, r, hi, hi2, hne, h1, h2 => by
    intro h
    simp only [derivLoop] at h
    rcases hstep : derivStep pset tset fid varied a with e2 | ⟨row, jv⟩
    · rw [hstep] at h
      cases h
    · rw [hstep] at h
      dsimp only at h
      rcases hrec : derivLoop pset tset fid rest (varied ++ [jv]) with e3 | rr
      · rw [hrec] at h
        cases h
      · by_cases hai : a = i
        · subst hai
          obtain ⟨j0, hj0, hjv0, _⟩ := derivStep_ok_sound hstep
          have hj0j : j0 = j := variesExactlyOne_unique hj0 h1
          have hi2rest : i2 ∈ rest := by
            rcases List.mem_cons.mp hi2 with hx | hx
            · exact absurd hx.symm hne
            · exact hx
          refine derivLoop_ne_ok_of_mem_varied hi2rest h2 ?_ hrec
          apply List.mem_append_right
          simp [hjv0, hj0j]
        · by_cases hai2 : a = i2
          · subst hai2
            obtain ⟨j0, hj0, hjv0, _⟩ := derivStep_ok_sound hstep
            have hj0j : j0 = j := variesExactlyOne_unique hj0 h2
            have hirest : i ∈ rest := by
              rcases List.mem_cons.mp hi with hx | hx
              · exact absurd hx hne
              · exact hx
            refine derivLoop_ne_ok_of_mem_varied hirest h1 ?_ hrec
            apply List.mem_append_right
            simp [hjv0, hj0j]
          · have hirest : i ∈ rest := by
              rcases List.mem_cons.mp hi with hx | hx
              · exact absurd hx.symm hai
              · exact hx
            have hi2rest : i2 ∈ rest := by
              rcases List.mem_cons.mp hi2 with hx | hx
              · exact absurd hx.symm hai2
              · exact hx
            exact derivLoop_ne_ok_of_dup hirest hi2rest hne h1 h2 hrec

/-- Two distinct indices force the type to have at least two elements. -/
theorem one_lt_of_fin_ne {p : ℕ} {a b : Fin p} (h : a ≠ b) : 1 < p := by
  rcases a with ⟨av, ha⟩
  rcases b with ⟨bv, hb⟩
  by_contra hp
  exact h (Fin.ext (by omega))

/-- C1: on a training set of at least two models in which every
non-fiducial model `i` differs from the fiducial parameter vector in
exactly the one index `v i`, no two non-fiducial models varying the same
index, `compute_derivatives` succeeds and returns one row per non-fiducial
model (in model order), row `i` being the elementwise finite difference
`(feature_i - fiducial_feature) / (param_i[v i] - fiducial_param[v i])`,
with the varied indices recorded in the same order; the number of rows is
`p - 1`. -/
theorem compute_derivatives_formula {p q N : ℕ} (st : FisherAnalysis p q N)
    (v : Fin p → Fin q) (hp : 1 < p) (hf : st.fiducial < p)
    (hv : ∀ i, i ≠ (⟨st.fiducial, hf⟩ : Fin p) →
      variesExactlyOne st.parameter_set ⟨st.fiducial, hf⟩ i (v i))
    (hinj : ∀ i i2, i ≠ (⟨st.fiducial, hf⟩ : Fin p) → i2 ≠ (⟨st.fiducial, hf⟩ : Fin p) →
      v i = v i2 → i = i2) :
    st.compute_derivatives = .ok
      (((List.finRange p).erase ⟨st.fiducial, hf⟩).map fun i => fun b =>
        (st.training_set i b - st.training_set ⟨st.fiducial, hf⟩ b) /
          (st.parameter_set i (v i) - st.parameter_set ⟨st.fiducial, hf⟩ (v i)),
       ((List.finRange p).erase ⟨st.fiducial, hf⟩).map fun i => (v i).val) ∧
    (((List.finRange p).erase ⟨st.fiducial, hf⟩).map fun i => fun b =>
        (st.training_set i b - st.training_set ⟨st.fiducial, hf⟩ b) /
          (st.parameter_set i (v i) - st.parameter_set ⟨st.fiducial, hf⟩ (v i))).length
      = p - 1 := by
  have hmemne : ∀ i ∈ (List.finRange p).erase (⟨st.fiducial, hf⟩ : Fin p),
      i ≠ (⟨st.fiducial, hf⟩ : Fin p) :=
    fun i hii => (((List.nodup_finRange p).mem_erase_iff).mp hii).1
  constructor
  · simp only [FisherAnalysis.compute_derivatives]
    rw [if_pos hp, dif_pos hf]
    rw [@derivLoop_formula p q N st.parameter_set st.training_set ⟨st.fiducial, hf⟩ v
      ((List.finRange p).erase ⟨st.fiducial, hf⟩) []
      (fun i hi => hv i (hmemne i hi))
      (fun i _ => List.not_mem_nil _)
      (fun i hi i2 hi2 => hinj i i2 (hmemne i hi) (hmemne i2 hi2))
      ((List.nodup_finRange p).erase _)]
    rw [List.nil_append]
  · rw [List.length_map, List.length_erase_of_mem (List.mem_finRange _), List.length_finRange]

/-- Witness for C1 on the spec-section-8 example: models 1 and 2 vary
parameters 0 and 1 respectively (`v = [0,0,1]`, the fiducial entry
unused). -/
theorem compute_derivatives_formula_witness :
    (1 < 3 ∧ specExample.fiducial < 3 ∧
      (∀ i : Fin 3, i ≠ 0 → variesExactlyOne specExample.parameter_set 0 i (![0, 0, 1] i)) ∧
      (∀ i i2 : Fin 3, i ≠ 0 → i2 ≠ 0 → (![0, 0, 1] : Fin 3 → Fin 2) i = ![0, 0, 1] i2 → i = i2)) ∧
    (∃ rows varied, specExample.compute_derivatives = .ok (rows, varied) ∧
      rows.length = 3 - 1) := by
  have h := compute_derivatives_formula specExample ![0, 0, 1] (by decide) (by decide)
    (by decide) (by decide)
  exact ⟨⟨by decide, by decide, by decide, by decide⟩, ⟨_, _, h.1, h.2⟩⟩

/-- C2: whenever some non-fiducial model differs from the fiducial
parameter vector in zero or in two or more indices, or two distinct
non-fiducial models vary the same index, `compute_derivatives` fails with
one of the two design asserts at lines 206 and 210 (the errors the spec
groups as `InvalidDesignError`), and in particular returns no derivatives
result. -/
theorem compute_derivatives_invalid_design {p q N : ℕ} (st : FisherAnalysis p q N)
    (hf : st.fiducial < p)
    (hbad :
      (∃ i, i ≠ (⟨st.fiducial, hf⟩ : Fin p) ∧
        ∀ j, ¬ variesExactlyOne st.parameter_set ⟨st.fiducial, hf⟩ i j) ∨
      (∃ i i2 j, i ≠ (⟨st.fiducial, hf⟩ : Fin p) ∧ i2 ≠ (⟨st.fiducial, hf⟩ : Fin p) ∧ i ≠ i2 ∧
        variesExactlyOne st.parameter_set ⟨st.fiducial, hf⟩ i j ∧
        variesExactlyOne st.parameter_set ⟨st.fiducial, hf⟩ i2 j)) :
    st.compute_derivatives = .error (.assertionError "You must vary one parameter at a time!") ∨
    st.compute_derivatives = .error (.assertionError "You cannot vary a parameter twice!!") := by
  have hp : 1 < p := by
    rcases hbad with ⟨i, hi, _⟩ | ⟨i, i2, j, hi, _, _, _, _⟩
    · exact one_lt_of_fin_ne hi
    · exact one_lt_of_fin_ne hi
  have hmem : ∀ i2 : Fin p, i2 ≠ (⟨st.fiducial, hf⟩ : Fin p) →
      i2 ∈ (List.finRange p).erase (⟨st.fiducial, hf⟩ : Fin p) :=
    fun i2 h2 => ((List.nodup_finRange p).mem_erase_iff).mpr ⟨h2, List.mem_finRange i2⟩
  simp only [FisherAnalysis.compute_derivatives]
  rw [if_pos hp, dif_pos hf]
  rcases hres : derivLoop st.parameter_set st.training_set ⟨st.fiducial, hf⟩
      ((List.finRange p).erase ⟨st.fiducial, hf⟩) [] with e | r
  · rcases derivLoop_error hres with h1 | h1
    · exact Or.inl (by rw [h1])
    · exact Or.inr (by rw [h1])
  · exfalso
    rcases hbad with ⟨i, hi, hno⟩ | ⟨i, i2, j, hi, hi2, hne, h1, h2⟩
    · exact derivLoop_ne_ok_of_no_vary (hmem i hi) hno hres
    · exact derivLoop_ne_ok_of_dup (hmem i hi) (hmem i2 hi2) hne h1 h2 hres

/-- A 2-model design whose non-fiducial model varies both parameters. -/
def invalidExample : FisherAnalysis 2 2 1 where
  parameter_set := ![![0, 0], ![1, 1]]
  training_set := ![![0], ![1]]
  fiducial := 0
  derivatives := none

/-- Witness for C2 at the concrete invalid design. -/
theorem compute_derivatives_invalid_design_witness :
    (invalidExample.fiducial < 2 ∧
      (∀ j, ¬ variesExactlyOne invalidExample.parameter_set 0 1 j)) ∧
    (invalidExample.compute_derivatives =
        .error (.assertionError "You must vary one parameter at a time!") ∨
      invalidExample.compute_derivatives =
        .error (.assertionError "You cannot vary a parameter twice!!")) :=
  ⟨⟨by decide, by decide⟩,
    compute_derivatives_invalid_design invalidExample (by decide)
      (Or.inl ⟨1, by decide, by decide⟩)⟩
